import Mathlib

/-!
Shallow embedding of the async connection pool in
`src/httpcore/_async/connection_pool.py`, together with theorems checking
the natural-language specification against it.

Modelling conventions:
* A connection handle is a `Nat` identifier; the attributes the pool reads
  (`origin`, `state`, `http_version`, the `is_connection_dropped()` probe)
  live in an attribute store `Nat → ConnAttrs`.
* Python's `Dict[Origin, Set[Connection]]` is an association list
  `List (Origin × List Nat)`; a set is a duplicate-free list, iterated in
  list order (Python's set iteration order is unspecified; the list order
  stands for whatever order the runtime uses).
* Awaitable external calls (`connection.close()`, `connection.request()`,
  the constructor) are oracles passed in as parameters: their outcome
  (success or raised exception) and their effect on the connection's own
  attributes are arbitrary inputs, since the connection classes are
  opaque collaborators of the pool.
* A raised exception is `PyErr`; a function that can raise returns its
  mutated pool state together with an `Except`/`Option PyErr` outcome,
  mirroring the fact that the pool object's state persists past a raise.
-/

inductive ConnectionState where
  | IDLE
  | ACTIVE
  | CLOSED
deriving DecidableEq, Repr

inductive HTTPVersion where
  | HTTP_11
  | HTTP_2
deriving DecidableEq, Repr

inductive PyErr where
  | keyError
  | exc : Nat → PyErr
deriving DecidableEq, Repr

/-- `Origin = Tuple[bytes, bytes, int]` (scheme, host, port). -/
abbrev Origin := String × String × Nat

/-- `URL = Tuple[bytes, bytes, int, bytes]`. -/
abbrev URL := String × String × Nat × String

/-- `origin = url[:3]` in `AsyncConnectionPool.request`. -/
def originOf (u : URL) : Origin := (u.1, u.2.1, u.2.2.1)

/-- The attributes of one connection object that the pool reads or writes:
`connection.origin`, `connection.state`, `connection.http_version`, and the
(side-effect-free) result of `connection.is_connection_dropped()`. -/
structure ConnAttrs where
  origin : Origin
  state : ConnectionState
  http_version : HTTPVersion
  is_connection_dropped : Bool
deriving DecidableEq, Repr

/-- Point update of the attribute store. -/
def setConnState (f : Nat → ConnAttrs) (c : Nat) (st : ConnectionState) :
    Nat → ConnAttrs :=
  fun i => if i = c then { f i with state := st } else f i

/-! ### The registry: `self.connections : Dict[Origin, Set[Connection]]` -/

abbrev Registry := List (Origin × List Nat)

/-- Dictionary lookup `reg[o]` (as an `Option`, `none` = `KeyError`). -/
def lookupOrigin : Registry → Origin → Option (List Nat)
  | [], _ => none
  | e :: rest, o => if e.1 = o then some e.2 else lookupOrigin rest o

/-- In-place mutation of the set stored under key `o`
(`reg[o].add(...)` / `reg[o].remove(...)`). -/
def updOrigin (reg : Registry) (o : Origin) (f : List Nat → List Nat) : Registry :=
  reg.map (fun e => if e.1 = o then (e.1, f e.2) else e)

/-- `del reg[o]`. -/
def delOrigin (reg : Registry) (o : Origin) : Registry :=
  reg.filter (fun e => e.1 ≠ o)

/-- The keys of the registry. -/
def regKeys (reg : Registry) : List Origin := reg.map Prod.fst

/-! ### ResponseByteStream -/

/-- Observable events of a `ResponseByteStream.close()` run:
the call to `self.stream.close()` and the call to
`self.callback(self.connection)`. -/
inductive RBSEvent where
  | streamClose
  | notify : Nat → RBSEvent
deriving DecidableEq, Repr

/-- Python `try: body finally: cleanup` over an event trace: the body runs
first; the cleanup block always runs afterwards; an exception raised by the
cleanup block supersedes the body's outcome, otherwise the body's outcome
(normal return or exception) is the outcome of the whole statement. -/
def runTryFinally (body cleanup : List RBSEvent → List RBSEvent × Except PyErr Unit)
    (tr : List RBSEvent) : List RBSEvent × Except PyErr Unit :=
  let b := body tr
  let f := cleanup b.1
  (f.1, match f.2 with
        | Except.error e => Except.error e
        | Except.ok _ => b.2)

/-- `await self.stream.close()`: emits its event; its outcome is the oracle
`res` (the underlying stream's close may return normally or raise). -/
def streamCloseOp (res : Except PyErr Unit) (tr : List RBSEvent) :
    List RBSEvent × Except PyErr Unit :=
  (tr ++ [RBSEvent.streamClose], res)

/-- `await self.callback(self.connection)`: emits its event with the bound
connection; its outcome is the oracle `res`. -/
def notifyOp (conn : Nat) (res : Except PyErr Unit) (tr : List RBSEvent) :
    List RBSEvent × Except PyErr Unit :=
  (tr ++ [RBSEvent.notify conn], res)

/-- `ResponseByteStream.close`: `try: await self.stream.close() finally:
await self.callback(self.connection)`. -/
def rbsClose (conn : Nat) (streamRes callbackRes : Except PyErr Unit)
    (tr : List RBSEvent) : List RBSEvent × Except PyErr Unit :=
  runTryFinally (streamCloseOp streamRes) (notifyOp conn callbackRes) tr

/-! ### Pool state and operations -/

/-- The mutable state of an `AsyncConnectionPool` (plus the attribute store
of all connection objects ever created, and a fresh-identifier counter). -/
structure PoolState where
  connections : Registry
  conns : Nat → ConnAttrs
  nextId : Nat

/-- A freshly constructed pool: `self.connections = {}`. -/
def initPool : PoolState where
  connections := []
  conns := fun _ =>
    { origin := ("", "", 0), state := ConnectionState.IDLE,
      http_version := HTTPVersion.HTTP_11, is_connection_dropped := false }
  nextId := 0

/-- One iteration of the scan loop in `_get_connection_from_pool`
(lines 106-122).  The accumulator is
(the live set `connections`, `connections_to_close`, `reuse_connection`);
`c` is the next element of the snapshot `list(connections)`. -/
def scanStep (attrs : Nat → ConnAttrs) (acc : List Nat × List Nat × Option Nat)
    (c : Nat) : List Nat × List Nat × Option Nat :=
  if (attrs c).state = ConnectionState.IDLE then
    if (attrs c).is_connection_dropped then
      (acc.1.erase c, acc.2.1 ++ [c], acc.2.2)
    else
      (acc.1, acc.2.1, some c)
  else if (attrs c).state = ConnectionState.ACTIVE ∧
      (attrs c).http_version = HTTPVersion.HTTP_2 then
    (acc.1, acc.2.1, some c)
  else
    acc

/-- The lock-protected section of `_get_connection_from_pool`
(lines 103-131): scan the origin's set evicting dropped `IDLE` connections,
drop the origin entry if the set became empty, and mark the reuse candidate
`ACTIVE`.  Returns (pool state at lock release, `reuse_connection`,
`connections_to_close`). -/
def getLock (s : PoolState) (origin : Origin) :
    PoolState × Option Nat × List Nat :=
  match lookupOrigin s.connections origin with
  | none => (s, none, [])
  | some l =>
    let res := l.foldl (scanStep s.conns) (l, [], none)
    let reg1 := updOrigin s.connections origin (fun _ => res.1)
    let reg2 := if res.1 = [] then delOrigin reg1 origin else reg1
    let conns2 := match res.2.2 with
      | some c => setConnState s.conns c ConnectionState.ACTIVE
      | none => s.conns
    ({ s with connections := reg2, conns := conns2 }, res.2.2, res.2.1)

/-- The `for connection in connections_to_close: await connection.close()`
loops (line 134 and line 157).  `closeBeh c` is the oracle for whether
`c.close()` returns normally (`none`) or raises.  Returns (pool state, the
connections on which `close()` was invoked, the exception that escaped the
loop, if any).  Modelled from the spec: the connection classes are not part
of this module; per §6 a successful `close()` transitions the connection's
state to `CLOSED`, and on a raise the connection's state is left as the
oracle found it.  A raise propagates out of the loop at once: the source
has no `try`/`except` around the body. -/
def closeAll (closeBeh : Nat → Option PyErr) :
    List Nat → PoolState → PoolState × List Nat × Option PyErr
  | [], s => (s, [], none)
  | c :: rest, s =>
    match closeBeh c with
    | some e => (s, [c], some e)
    | none =>
      let s1 := { s with conns := setConnState s.conns c ConnectionState.CLOSED }
      let r := closeAll closeBeh rest s1
      (r.1, c :: r.2.1, r.2.2)

/-- `_get_connection_from_pool` in full: the lock-protected section, then
closing the evicted connections outside the lock.  Returns
(pool state, returned connection, connections whose `close()` was invoked,
escaped exception). -/
def getConnectionFromPool (closeBeh : Nat → Option PyErr) (s : PoolState)
    (origin : Origin) : PoolState × Option Nat × List Nat × Option PyErr :=
  let g := getLock s origin
  let rc := closeAll closeBeh g.2.2 g.1
  (rc.1, g.2.1, rc.2.1, rc.2.2)

/-- `_response_closed(connection)` (lines 139-146): under the lock, if the
connection is `CLOSED`, `self.connections[connection.origin].remove(connection)`
(a missing key or a missing member raises `KeyError`), then delete the
origin entry if its set became empty; otherwise do nothing. -/
def responseClosed (s : PoolState) (c : Nat) : PoolState × Except PyErr Unit :=
  if (s.conns c).state = ConnectionState.CLOSED then
    match lookupOrigin s.connections (s.conns c).origin with
    | none => (s, Except.error PyErr.keyError)
    | some l =>
      if c ∈ l then
        let lrest := l.erase c
        let reg1 := updOrigin s.connections (s.conns c).origin (fun _ => lrest)
        let reg2 := if lrest = [] then delOrigin reg1 (s.conns c).origin else reg1
        ({ s with connections := reg2 }, Except.ok ())
      else (s, Except.error PyErr.keyError)
  else (s, Except.ok ())

/-- `connections_to_close.update(connection_set)` over all values, i.e. the
set union of every origin's connection set (lines 151-153). -/
def gatherAll (reg : Registry) : List Nat :=
  reg.foldl (fun acc e => acc ++ e.2.filter (fun c => c ∉ acc)) []

/-- `AsyncConnectionPool.close` (lines 148-158): under the lock collect
every connection and clear the registry; outside the lock close them. -/
def poolClose (closeBeh : Nat → Option PyErr) (s : PoolState) :
    PoolState × List Nat × Option PyErr :=
  let toClose := gatherAll s.connections
  closeAll closeBeh toClose { s with connections := [] }

/-- The outcome of one `AsyncConnectionPool.request` call: the pool state
it leaves behind, the returned response (or the exception it raises), and
the list of connections on which `connection.request(...)` was invoked. -/
structure RequestResult where
  pool : PoolState
  result : Except PyErr Nat
  reqCalls : List Nat

/-- `await connection.request(method, url, ...)` (lines 88-90).  Modelled
from the spec: the connection class is an opaque collaborator; the call may
mutate the connection's own attributes (`reqEffect`), except that `origin`
is read-only (§6), and either returns a response or raises (`reqRes`). -/
def doConnRequest (reqEffect : ConnAttrs → ConnAttrs) (reqRes : Except PyErr Nat)
    (c : Nat) (s : PoolState) : RequestResult :=
  let f := fun i =>
    if i = c then { reqEffect (s.conns i) with origin := (s.conns i).origin }
    else s.conns i
  { pool := { s with conns := f }, result := reqRes.map id, reqCalls := [c] }

/-- `AsyncConnectionPool.request` (lines 64-94): derive the origin from the
URL, acquire a pooled connection, else construct a new connection
(`ctorFail` is the oracle for the constructor raising; `st0`, `ver0`, `dr0`
are the fresh object's initial attributes, its `origin` being the keyword
argument `origin=origin`) and register it under `origin` via
`setdefault`/`add`, then delegate to `connection.request`. -/
def poolRequest (ctorFail : Option PyErr) (st0 : ConnectionState)
    (ver0 : HTTPVersion) (dr0 : Bool) (reqEffect : ConnAttrs → ConnAttrs)
    (reqRes : Except PyErr Nat) (closeBeh : Nat → Option PyErr)
    (s : PoolState) (url : URL) : RequestResult :=
  let origin := originOf url
  let g := getLock s origin
  let cl := closeAll closeBeh g.2.2 g.1
  match cl.2.2 with
  | some e => { pool := cl.1, result := Except.error e, reqCalls := [] }
  | none =>
    match g.2.1 with
    | some c => doConnRequest reqEffect reqRes c cl.1
    | none =>
      match ctorFail with
      | some e => { pool := cl.1, result := Except.error e, reqCalls := [] }
      | none =>
        let c := cl.1.nextId
        let attrs0 : ConnAttrs :=
          { origin := origin, state := st0, http_version := ver0,
            is_connection_dropped := dr0 }
        let conns1 := fun i => if i = c then attrs0 else cl.1.conns i
        let reg1 := if lookupOrigin cl.1.connections origin = none
          then cl.1.connections ++ [(origin, [])] else cl.1.connections
        let reg2 := updOrigin reg1 origin
          (fun l => if c ∈ l then l else l ++ [c])
        doConnRequest reqEffect reqRes c
          { connections := reg2, conns := conns1, nextId := c + 1 }

/-! ### Characterizing the scan loop -/

/-- A connection the scan evicts: `IDLE` and `is_connection_dropped()`. -/
def deadConn (a : ConnAttrs) : Bool :=
  a.state == ConnectionState.IDLE && a.is_connection_dropped

/-- A connection the scan records as the reuse candidate: `IDLE` and alive,
or `ACTIVE` with HTTP/2. -/
def qualConn (a : ConnAttrs) : Bool :=
  (a.state == ConnectionState.IDLE && !a.is_connection_dropped) ||
    (a.state == ConnectionState.ACTIVE && a.http_version == HTTPVersion.HTTP_2)

theorem scanStep_eq (attrs : Nat → ConnAttrs) (acc : List Nat × List Nat × Option Nat)
    (c : Nat) :
    scanStep attrs acc c =
      if deadConn (attrs c) then (acc.1.erase c, acc.2.1 ++ [c], acc.2.2)
      else if qualConn (attrs c) then (acc.1, acc.2.1, some c)
      else acc := by
  rcases h : attrs c with ⟨o, st, v, dr⟩
  cases st <;> cases v <;> cases dr <;>
    simp [scanStep, deadConn, qualConn, h]

theorem getLast?_or_cons (c : Nat) (xs : List Nat) (u : Option Nat) :
    ((c :: xs).getLast?).or u = (xs.getLast?).or (some c) := by
  cases xs with
  | nil => simp
  | cons x xs =>
    rw [List.getLast?_cons_cons]
    rcases h : (x :: xs).getLast? with _ | y
    · simp [List.getLast?_eq_none_iff] at h
    · simp [Option.or]

theorem scanFold_toClose (attrs : Nat → ConnAttrs) (l : List Nat) :
    ∀ (r t : List Nat) (u : Option Nat),
      (l.foldl (scanStep attrs) (r, t, u)).2.1 =
        t ++ l.filter (fun c => deadConn (attrs c)) := by
  induction l with
  | nil => intro r t u; simp
  | cons c l ih =>
    intro r t u
    rw [List.foldl_cons, scanStep_eq]
    by_cases hd : deadConn (attrs c)
    · simp only [hd, if_true, ih, List.filter_cons, List.append_assoc,
        List.singleton_append]
    · by_cases hq : qualConn (attrs c) <;>
        simp [hd, hq, ih, List.filter_cons]

theorem scanFold_reuse (attrs : Nat → ConnAttrs) (l : List Nat) :
    ∀ (r t : List Nat) (u : Option Nat),
      (l.foldl (scanStep attrs) (r, t, u)).2.2 =
        ((l.filter (fun c => qualConn (attrs c))).getLast?).or u := by
  induction l with
  | nil => intro r t u; simp
  | cons c l ih =>
    intro r t u
    rw [List.foldl_cons, scanStep_eq]
    by_cases hd : deadConn (attrs c)
    · have hq : qualConn (attrs c) = false := by
        rcases h : attrs c with ⟨o, st, v, dr⟩
        rw [h] at hd
        cases st <;> cases dr <;> simp_all [deadConn, qualConn]
      simp [hd, hq, ih, List.filter_cons]
    · by_cases hq : qualConn (attrs c)
      · rw [if_neg hd, if_pos hq, ih, List.filter_cons]
        simp only [hq, if_true]
        exact (getLast?_or_cons c _ u).symm
      · simp [hd, hq, ih, List.filter_cons]

theorem scanFold_remaining (attrs : Nat → ConnAttrs) (l : List Nat) :
    ∀ (r t : List Nat) (u : Option Nat), r.Nodup →
      (l.foldl (scanStep attrs) (r, t, u)).1 =
        r.filter (fun x => !(deadConn (attrs x) && l.contains x)) := by
  induction l with
  | nil =>
    intro r t u _
    simp
  | cons c l ih =>
    intro r t u hr
    rw [List.foldl_cons, scanStep_eq]
    by_cases hd : deadConn (attrs c)
    · rw [if_pos hd]
      rw [ih (r.erase c) (t ++ [c]) u (hr.erase c)]
      rw [List.Nodup.erase_eq_filter hr c, List.filter_filter]
      refine List.filter_congr (fun x _ => ?_)
      by_cases hxc : x = c
      · subst hxc
        simp [hd]
      · simp [hxc, List.contains_cons, Ne.symm hxc]
    · rw [if_neg hd]
      rw [Bool.not_eq_true] at hd
      have key : ∀ (u' : Option Nat),
          (List.foldl (scanStep attrs) (r, t, u') l).1 =
            r.filter (fun x => !(deadConn (attrs x) && (c :: l).contains x)) := by
        intro u'
        rw [ih r t u' hr]
        refine List.filter_congr (fun x _ => ?_)
        by_cases hxc : x = c
        · subst hxc
          simp [hd]
        · simp [hxc, List.contains_cons, Ne.symm hxc]
      by_cases hq : qualConn (attrs c)
      · rw [if_pos hq]
        exact key (some c)
      · rw [if_neg hq]
        exact key u

/-- The connections of `l` that survive the scan (not dropped while `IDLE`). -/
def liveOf (attrs : Nat → ConnAttrs) (l : List Nat) : List Nat :=
  l.filter (fun x => !deadConn (attrs x))

/-- The connections of `l` the scan evicts (`connections_to_close`). -/
def deadOf (attrs : Nat → ConnAttrs) (l : List Nat) : List Nat :=
  l.filter (fun x => deadConn (attrs x))

/-- The reuse candidate the scan ends with: the last qualifying connection
in iteration order, if any. -/
def reuseOf (attrs : Nat → ConnAttrs) (l : List Nat) : Option Nat :=
  (l.filter (fun x => qualConn (attrs x))).getLast?

/-- Replacing the set under `o` by `newval`, deleting the entry when the
new set is empty (the common shape of the registry mutation in
`_get_connection_from_pool` and `_response_closed`). -/
def shrinkReg (reg : Registry) (o : Origin) (newval : List Nat) : Registry :=
  if newval = [] then delOrigin (updOrigin reg o (fun _ => newval)) o
  else updOrigin reg o (fun _ => newval)

theorem contains_of_mem {l : List Nat} {x : Nat} (hx : x ∈ l) :
    l.contains x = true := by
  simpa using hx

theorem getLock_none (s : PoolState) (origin : Origin)
    (h : lookupOrigin s.connections origin = none) :
    getLock s origin = (s, none, []) := by
  simp only [getLock, h]

theorem getLock_some (s : PoolState) (origin : Origin) (l : List Nat)
    (h : lookupOrigin s.connections origin = some l) (hnd : l.Nodup) :
    getLock s origin =
      ({ connections := shrinkReg s.connections origin (liveOf s.conns l),
         conns := match reuseOf s.conns l with
           | some c => setConnState s.conns c ConnectionState.ACTIVE
           | none => s.conns,
         nextId := s.nextId },
       reuseOf s.conns l, deadOf s.conns l) := by
  have h1 : (l.foldl (scanStep s.conns) (l, [], none)).1 = liveOf s.conns l := by
    rw [scanFold_remaining s.conns l l [] none hnd]
    refine List.filter_congr (fun x hx => ?_)
    rw [contains_of_mem hx, Bool.and_true]
  have h2 : (l.foldl (scanStep s.conns) (l, [], none)).2.1 = deadOf s.conns l := by
    rw [scanFold_toClose]
    simp [deadOf]
  have h3 : (l.foldl (scanStep s.conns) (l, [], none)).2.2 = reuseOf s.conns l := by
    rw [scanFold_reuse]
    simp [reuseOf]
  simp only [getLock, h, h1, h2, h3, shrinkReg]

/-! ### Concrete states used by witnesses -/

def oA : Origin := ("https", "example.com", 443)

def urlA : URL := ("https", "example.com", 443, "/")

def attrsA : Nat → ConnAttrs := fun i =>
  if i = 0 then
    { origin := oA, state := ConnectionState.IDLE,
      http_version := HTTPVersion.HTTP_11, is_connection_dropped := true }
  else if i = 1 then
    { origin := oA, state := ConnectionState.IDLE,
      http_version := HTTPVersion.HTTP_11, is_connection_dropped := false }
  else if i = 2 then
    { origin := oA, state := ConnectionState.ACTIVE,
      http_version := HTTPVersion.HTTP_2, is_connection_dropped := false }
  else
    { origin := oA, state := ConnectionState.CLOSED,
      http_version := HTTPVersion.HTTP_11, is_connection_dropped := false }

def sA : PoolState := { connections := [(oA, [0, 1, 2])], conns := attrsA, nextId := 3 }

/-! ### C1: the response stream's close always notifies the pool -/

/-- C1: every run of `ResponseByteStream.close()` appends exactly one
notification event carrying the bound connection to the trace (whatever the
underlying `stream.close()` and the callback do), the notification comes
after the underlying close attempt, and when the underlying close raises
and the notification completes, that underlying failure is the call's
outcome, produced only after the notification event is in the trace. -/
theorem c1_notification_always_fires (conn : Nat)
    (streamRes callbackRes : Except PyErr Unit) (tr : List RBSEvent) :
    (rbsClose conn streamRes callbackRes tr).1 =
      tr ++ [RBSEvent.streamClose, RBSEvent.notify conn] ∧
    ((rbsClose conn streamRes callbackRes tr).1.count (RBSEvent.notify conn) =
      tr.count (RBSEvent.notify conn) + 1) ∧
    (∀ e, streamRes = Except.error e → callbackRes = Except.ok () →
      (rbsClose conn streamRes callbackRes tr).2 = Except.error e) := by
  refine ⟨?_, ?_, ?_⟩
  · simp [rbsClose, runTryFinally, streamCloseOp, notifyOp]
  · simp [rbsClose, runTryFinally, streamCloseOp, notifyOp, List.count_append,
      List.count_cons]
  · intro e h1 h2
    subst h1
    subst h2
    simp [rbsClose, runTryFinally, streamCloseOp, notifyOp]

theorem c1_witness :
    ((rbsClose 5 (Except.error (PyErr.exc 3)) (Except.ok ()) []).1.count
      (RBSEvent.notify 5) = 1) ∧
    (rbsClose 5 (Except.error (PyErr.exc 3)) (Except.ok ()) []).2 =
      Except.error (PyErr.exc 3) := by
  have h := c1_notification_always_fires 5 (Except.error (PyErr.exc 3))
    (Except.ok ()) []
  exact ⟨by simpa using h.2.1, h.2.2 (PyErr.exc 3) rfl rfl⟩

/-! ### C4: the reuse candidate is marked ACTIVE inside the lock -/

/-- C4: whenever the lock-protected section of `_get_connection_from_pool`
chooses a reuse connection, that connection's `state` is `ACTIVE` in the
pool state at the moment the lock is released, hence before any evicted
connection is closed. -/
theorem c4_reserved_active_under_lock (s : PoolState) (origin : Origin) (c : Nat)
    (h : (getLock s origin).2.1 = some c) :
    ((getLock s origin).1.conns c).state = ConnectionState.ACTIVE := by
  rcases hl : lookupOrigin s.connections origin with _ | l
  · rw [getLock_none s origin hl] at h
    simp at h
  · simp only [getLock, hl] at h ⊢
    rw [h]
    simp [setConnState]

theorem c4_witness :
    ((getLock sA oA).2.1 = some 2) ∧
    ((getLock sA oA).1.conns 2).state = ConnectionState.ACTIVE :=
  ⟨by decide, c4_reserved_active_under_lock sA oA 2 (by decide)⟩

/-! ### C8: the last qualifying candidate wins -/

/-- C8: when `_get_connection_from_pool` scans the origin's set, the
returned reuse candidate is the last connection in the set's iteration
order that qualifies (`IDLE` and not dropped, or `ACTIVE` with HTTP/2):
each later candidate overwrites any earlier one, so the result is the
`getLast?` of the qualifying subsequence (and `none` when no connection
qualifies). -/
theorem c8_last_candidate_wins (s : PoolState) (origin : Origin) (l : List Nat)
    (h : lookupOrigin s.connections origin = some l) :
    (getLock s origin).2.1 =
      (l.filter (fun c => qualConn (s.conns c))).getLast? := by
  simp only [getLock, h]
  rw [scanFold_reuse]
  simp

theorem c8_witness :
    (lookupOrigin sA.connections oA = some [0, 1, 2]) ∧
    (getLock sA oA).2.1 =
      ([0, 1, 2].filter (fun c => qualConn (sA.conns c))).getLast? :=
  ⟨by decide, c8_last_candidate_wins sA oA [0, 1, 2] (by decide)⟩

/-! ### C10: _response_closed raises KeyError on a missing entry -/

/-- C10: calling `_response_closed` on a `CLOSED` connection whose origin
has no registry entry (or whose origin's set no longer holds the
connection) hits the unguarded `self.connections[connection.origin]`
lookup / `set.remove` and raises `KeyError`, instead of completing as a
no-op. -/
theorem c10_keyerror_on_missing_entry (s : PoolState) (c : Nat)
    (h1 : (s.conns c).state = ConnectionState.CLOSED) :
    (lookupOrigin s.connections (s.conns c).origin = none →
      responseClosed s c = (s, Except.error PyErr.keyError)) ∧
    (∀ l, lookupOrigin s.connections (s.conns c).origin = some l → c ∉ l →
      responseClosed s c = (s, Except.error PyErr.keyError)) := by
  constructor
  · intro h2
    simp [responseClosed, h1, h2]
  · intro l h2 h3
    simp [responseClosed, h1, h2, h3]

def sC : PoolState :=
  { connections := [], conns := fun _ =>
      { origin := oA, state := ConnectionState.CLOSED,
        http_version := HTTPVersion.HTTP_11, is_connection_dropped := false },
    nextId := 1 }

theorem c10_witness :
    ((sC.conns 0).state = ConnectionState.CLOSED) ∧
    (lookupOrigin sC.connections (sC.conns 0).origin = none) ∧
    responseClosed sC 0 = (sC, Except.error PyErr.keyError) :=
  ⟨by decide, rfl,
    (c10_keyerror_on_missing_entry sC 0 (by decide)).1 rfl⟩

/-! ### Registry lookup lemmas -/

theorem lookupOrigin_updOrigin_self (reg : Registry) (o : Origin)
    (f : List Nat → List Nat) :
    lookupOrigin (updOrigin reg o f) o = (lookupOrigin reg o).map f := by
  induction reg with
  | nil => simp [updOrigin, lookupOrigin]
  | cons e rest ih =>
    by_cases he : e.1 = o
    · simp [updOrigin, lookupOrigin, he]
    · simp only [updOrigin, List.map_cons, if_neg he]
      simp only [lookupOrigin, if_neg he]
      exact ih

theorem lookupOrigin_updOrigin_ne (reg : Registry) (o oo : Origin)
    (f : List Nat → List Nat) (h : oo ≠ o) :
    lookupOrigin (updOrigin reg o f) oo = lookupOrigin reg oo := by
  induction reg with
  | nil => simp [updOrigin, lookupOrigin]
  | cons e rest ih =>
    have hno : ¬ o = oo := fun hh => h hh.symm
    by_cases he : e.1 = o
    · simp only [updOrigin, List.map_cons, if_pos he] at *
      simp [lookupOrigin, he, hno, ih, updOrigin]
    · simp only [updOrigin, List.map_cons, if_neg he] at *
      by_cases he2 : e.1 = oo <;> simp [lookupOrigin, he2, ih, updOrigin]

theorem lookupOrigin_delOrigin_self (reg : Registry) (o : Origin) :
    lookupOrigin (delOrigin reg o) o = none := by
  induction reg with
  | nil => simp [delOrigin, lookupOrigin]
  | cons e rest ih =>
    by_cases he : e.1 = o
    · simpa [delOrigin, List.filter_cons, he] using ih
    · simpa [delOrigin, List.filter_cons, he, lookupOrigin] using ih

theorem lookupOrigin_delOrigin_ne (reg : Registry) (o oo : Origin)
    (h : oo ≠ o) :
    lookupOrigin (delOrigin reg o) oo = lookupOrigin reg oo := by
  induction reg with
  | nil => simp [delOrigin, lookupOrigin]
  | cons e rest ih =>
    have hno : ¬ o = oo := fun hh => h hh.symm
    obtain ⟨p, v⟩ := e
    by_cases he : p = o
    · subst he
      simp only [delOrigin, List.filter_cons, lookupOrigin]
      simp only [show ¬ p = oo from fun hh => h hh.symm, ite_false,
        decide_True, Bool.not_true, Bool.false_eq_true, if_false]
      simpa [delOrigin] using ih
    · by_cases he2 : p = oo
      · subst he2
        simp [delOrigin, List.filter_cons, lookupOrigin, he]
      · simp only [delOrigin, List.filter_cons, lookupOrigin, he, he2,
          ite_false, decide_False, Bool.not_false, if_true]
        rw [if_pos (show decide (p ≠ o) = true by simp [he])]
        simp only [lookupOrigin]
        rw [if_neg he2]
        simpa [delOrigin] using ih

/-! ### The close loops -/

theorem closeAll_ok (closeBeh : Nat → Option PyErr) (l : List Nat) :
    ∀ s : PoolState, (∀ x ∈ l, closeBeh x = none) →
      (closeAll closeBeh l s).2.1 = l ∧ (closeAll closeBeh l s).2.2 = none := by
  induction l with
  | nil => intro s _; simp [closeAll]
  | cons c rest ih =>
    intro s h
    have hc := h c (List.mem_cons_self c rest)
    have hr := ih { s with conns := setConnState s.conns c ConnectionState.CLOSED }
      (fun x hx => h x (List.mem_cons_of_mem c hx))
    simp only [closeAll, hc]
    exact ⟨by rw [hr.1], hr.2⟩

theorem closeAll_split (closeBeh : Nat → Option PyErr) (l : List Nat) :
    ∀ (s : PoolState) (e : PyErr), (closeAll closeBeh l s).2.2 = some e →
      ∃ l1 c l2, l = l1 ++ c :: l2 ∧
        (closeAll closeBeh l s).2.1 = l1 ++ [c] ∧
        closeBeh c = some e ∧ ∀ x ∈ l1, closeBeh x = none := by
  induction l with
  | nil => intro s e h; simp [closeAll] at h
  | cons c rest ih =>
    intro s e h
    rcases hc : closeBeh c with _ | ee
    · simp only [closeAll, hc] at h ⊢
      obtain ⟨l1, cc, l2, h1, h2, h3, h4⟩ :=
        ih { s with conns := setConnState s.conns c ConnectionState.CLOSED } e h
      refine ⟨c :: l1, cc, l2, by simp [h1], by simp [h2], h3, ?_⟩
      intro x hx
      rcases List.mem_cons.mp hx with rfl | hx2
      · exact hc
      · exact h4 x hx2
    · simp only [closeAll, hc] at h ⊢
      obtain rfl : ee = e := by simpa using h
      exact ⟨[], c, rest, by simp, by simp, hc, by simp⟩

/-! ### C3: dead-connection eviction -/

/-- C3: a connection of the scanned origin set that is `IDLE` and whose
liveness probe reports it dropped is never the reuse candidate
`_get_connection_from_pool` returns; it is put into
`connections_to_close` and removed from the origin's set during the scan;
if the set became empty the origin entry is deleted; and (when no other
eviction's close raises first) its `close()` is invoked before the call
returns. -/
theorem c3_dead_connection_eviction (s : PoolState) (origin : Origin)
    (l : List Nat) (c : Nat)
    (h : lookupOrigin s.connections origin = some l) (hnd : l.Nodup)
    (hc : c ∈ l) (hidle : (s.conns c).state = ConnectionState.IDLE)
    (hdrop : (s.conns c).is_connection_dropped = true) :
    (getLock s origin).2.1 ≠ some c ∧
    c ∈ (getLock s origin).2.2 ∧
    (∀ l2, lookupOrigin (getLock s origin).1.connections origin = some l2 →
      c ∉ l2) ∧
    (liveOf s.conns l = [] →
      lookupOrigin (getLock s origin).1.connections origin = none) ∧
    (∀ closeBeh : Nat → Option PyErr,
      (∀ x ∈ (getLock s origin).2.2, closeBeh x = none) →
      c ∈ (closeAll closeBeh (getLock s origin).2.2 (getLock s origin).1).2.1) := by
  have hq : qualConn (s.conns c) = false := by
    simp [qualConn, hidle, hdrop]
  have hdead : deadConn (s.conns c) = true := by
    simp [deadConn, hidle, hdrop]
  rw [getLock_some s origin l h hnd]
  dsimp only
  refine ⟨?_, ?_, ?_, ?_, ?_⟩
  · intro hcontra
    simp only [reuseOf] at hcontra
    have h1 := List.mem_of_mem_getLast? hcontra
    have h2 := (List.mem_filter.mp h1).2
    rw [hq] at h2
    cases h2
  · exact List.mem_filter.mpr ⟨hc, hdead⟩
  · intro l2 hl2
    by_cases hlive : liveOf s.conns l = []
    · rw [shrinkReg, if_pos hlive, lookupOrigin_delOrigin_self] at hl2
      cases hl2
    · rw [shrinkReg, if_neg hlive, lookupOrigin_updOrigin_self, h] at hl2
      have hl2e : liveOf s.conns l = l2 := by simpa using hl2
      intro hcl
      rw [← hl2e] at hcl
      have h2 := (List.mem_filter.mp hcl).2
      rw [hdead] at h2
      cases h2
  · intro hlive
    rw [shrinkReg, if_pos hlive, lookupOrigin_delOrigin_self]
  · intro closeBeh hbeh
    rw [(closeAll_ok closeBeh (deadOf s.conns l) _ hbeh).1]
    exact List.mem_filter.mpr ⟨hc, hdead⟩

theorem c3_witness :
    (lookupOrigin sA.connections oA = some [0, 1, 2] ∧
      ([0, 1, 2] : List Nat).Nodup ∧ 0 ∈ ([0, 1, 2] : List Nat) ∧
      (sA.conns 0).state = ConnectionState.IDLE ∧
      (sA.conns 0).is_connection_dropped = true) ∧
    (getLock sA oA).2.1 ≠ some 0 ∧
    0 ∈ (getLock sA oA).2.2 ∧
    0 ∈ (closeAll (fun _ => none) (getLock sA oA).2.2 (getLock sA oA).1).2.1 := by
  have h := c3_dead_connection_eviction sA oA [0, 1, 2] 0 (by decide) (by decide)
    (by decide) (by decide) (by decide)
  exact ⟨⟨by decide, by decide, by decide, by decide, by decide⟩,
    h.1, h.2.1, h.2.2.2.2 (fun _ => none) (fun x _ => rfl)⟩

/-! ### C2: close loops are not failure-isolated -/

theorem closeAll_none (closeBeh : Nat → Option PyErr) (l : List Nat) :
    ∀ s : PoolState, (closeAll closeBeh l s).2.2 = none →
      (closeAll closeBeh l s).2.1 = l ∧ ∀ x ∈ l, closeBeh x = none := by
  induction l with
  | nil => intro s _; simp [closeAll]
  | cons c rest ih =>
    intro s h
    rcases hc : closeBeh c with _ | e
    · simp only [closeAll, hc] at h ⊢
      have hr := ih { s with conns := setConnState s.conns c ConnectionState.CLOSED } h
      refine ⟨by rw [hr.1], ?_⟩
      intro x hx
      rcases List.mem_cons.mp hx with rfl | hx2
      · exact hc
      · exact hr.2 x hx2
    · simp [closeAll, hc] at h

def sB : PoolState := { connections := [(oA, [0, 1])], conns := attrsA, nextId := 2 }

def behB : Nat → Option PyErr := fun i => if i = 0 then some (PyErr.exc 7) else none

/-- C2 (counterexample): with two registered connections and the first
`close()` raising, `AsyncConnectionPool.close` invokes `close()` on the
first connection only — the second is never closed — and the single raised
exception escapes un-aggregated.  This falsifies the claim that a failure
closing one connection does not prevent closing the remainder. -/
theorem c2_counterexample :
    (poolClose behB sB).2.2 = some (PyErr.exc 7) ∧
    (poolClose behB sB).2.1 = [0] ∧
    1 ∉ (poolClose behB sB).2.1 ∧
    1 ∈ gatherAll sB.connections := by decide

/-- C2 (amended): in `AsyncConnectionPool.close` and in the eviction phase
of `_get_connection_from_pool`, the close loop has no per-connection
failure isolation: `close()` is invoked on each collected connection in
order until the first failure; if every close succeeds the whole
collection is closed; if one raises, the loop aborts — `close()` is never
invoked on the connections after the failing one — and that single
exception propagates to the caller with no aggregation. -/
theorem c2_amended_close_loop_aborts (closeBeh : Nat → Option PyErr)
    (s : PoolState) (origin : Origin) :
    ((poolClose closeBeh s).2.2 = none →
      (poolClose closeBeh s).2.1 = gatherAll s.connections) ∧
    (∀ e, (poolClose closeBeh s).2.2 = some e →
      ∃ l1 c l2, gatherAll s.connections = l1 ++ c :: l2 ∧
        (poolClose closeBeh s).2.1 = l1 ++ [c] ∧
        closeBeh c = some e ∧ ∀ x ∈ l1, closeBeh x = none) ∧
    ((getConnectionFromPool closeBeh s origin).2.2.2 = none →
      (getConnectionFromPool closeBeh s origin).2.2.1 =
        (getLock s origin).2.2) ∧
    (∀ e, (getConnectionFromPool closeBeh s origin).2.2.2 = some e →
      ∃ l1 c l2, (getLock s origin).2.2 = l1 ++ c :: l2 ∧
        (getConnectionFromPool closeBeh s origin).2.2.1 = l1 ++ [c] ∧
        closeBeh c = some e ∧ ∀ x ∈ l1, closeBeh x = none) := by
  refine ⟨?_, ?_, ?_, ?_⟩
  · intro h
    exact (closeAll_none closeBeh (gatherAll s.connections) _ h).1
  · intro e h
    exact closeAll_split closeBeh (gatherAll s.connections) _ e h
  · intro h
    exact (closeAll_none closeBeh (getLock s origin).2.2 _ h).1
  · intro e h
    exact closeAll_split closeBeh (getLock s origin).2.2 _ e h

theorem c2_amended_witness :
    ∃ l1 c l2, gatherAll sB.connections = l1 ++ c :: l2 ∧
      (poolClose behB sB).2.1 = l1 ++ [c] ∧
      behB c = some (PyErr.exc 7) ∧ ∀ x ∈ l1, behB x = none :=
  (c2_amended_close_loop_aborts behB sB oA).2.1 (PyErr.exc 7) (by decide)

/-! ### C6: the frame of _response_closed -/

/-- C6: `_response_closed(connection)` removes a `CLOSED` connection from
its origin's set, deleting the origin entry when the set becomes empty and
leaving every other origin's entry unchanged; for a connection in any
state other than `CLOSED` it leaves the whole pool state untouched. -/
theorem c6_response_closed_frame (s : PoolState) (c : Nat) :
    ((s.conns c).state ≠ ConnectionState.CLOSED →
      responseClosed s c = (s, Except.ok ())) ∧
    ((s.conns c).state = ConnectionState.CLOSED →
      ∀ l, lookupOrigin s.connections (s.conns c).origin = some l → c ∈ l →
        (responseClosed s c).2 = Except.ok () ∧
        lookupOrigin (responseClosed s c).1.connections (s.conns c).origin =
          (if l.erase c = [] then none else some (l.erase c)) ∧
        (∀ oo, oo ≠ (s.conns c).origin →
          lookupOrigin (responseClosed s c).1.connections oo =
            lookupOrigin s.connections oo) ∧
        (responseClosed s c).1.conns = s.conns ∧
        (responseClosed s c).1.nextId = s.nextId) := by
  constructor
  · intro h
    simp [responseClosed, h]
  · intro h l hl hcl
    have hred : responseClosed s c =
        ({ s with connections :=
            (if l.erase c = [] then
              delOrigin (updOrigin s.connections (s.conns c).origin
                (fun _ => l.erase c)) (s.conns c).origin
            else updOrigin s.connections (s.conns c).origin
              (fun _ => l.erase c)) }, Except.ok ()) := by
      simp only [responseClosed, h, hl, if_pos hcl, ite_true]
    rw [hred]
    refine ⟨rfl, ?_, ?_, rfl, rfl⟩
    · by_cases herase : l.erase c = []
      · simp only [herase, ite_true]
        exact lookupOrigin_delOrigin_self _ _
      · simp only [herase, ite_false]
        rw [lookupOrigin_updOrigin_self, hl]
        rfl
    · intro oo hoo
      by_cases herase : l.erase c = []
      · simp only [herase, ite_true]
        rw [lookupOrigin_delOrigin_ne _ _ _ hoo,
          lookupOrigin_updOrigin_ne _ _ _ _ hoo]
      · simp only [herase, ite_false]
        rw [lookupOrigin_updOrigin_ne _ _ _ _ hoo]

def sD : PoolState := { connections := [(oA, [0, 3])], conns := attrsA, nextId := 4 }

theorem c6_witness :
    ((sA.conns 1).state ≠ ConnectionState.CLOSED ∧
      responseClosed sA 1 = (sA, Except.ok ())) ∧
    ((sD.conns 3).state = ConnectionState.CLOSED ∧
      lookupOrigin sD.connections (sD.conns 3).origin = some [0, 3] ∧
      3 ∈ ([0, 3] : List Nat) ∧
      (responseClosed sD 3).2 = Except.ok () ∧
      lookupOrigin (responseClosed sD 3).1.connections (sD.conns 3).origin =
        some [0]) := by
  have h1 := (c6_response_closed_frame sA 1).1 (by decide)
  have h2 := (c6_response_closed_frame sD 3).2 (by decide) [0, 3] (by decide)
    (by decide)
  exact ⟨⟨by decide, h1⟩, ⟨by decide, by decide, by decide, h2.1,
    by rw [h2.2.1]; decide⟩⟩

/-! ### C7: request failures propagate unmodified -/

theorem closeAll_frame (closeBeh : Nat → Option PyErr) (l : List Nat) :
    ∀ s : PoolState, (closeAll closeBeh l s).1.connections = s.connections ∧
      (closeAll closeBeh l s).1.nextId = s.nextId ∧
      ∀ i, ((closeAll closeBeh l s).1.conns i).origin = (s.conns i).origin := by
  induction l with
  | nil => intro s; exact ⟨rfl, rfl, fun i => rfl⟩
  | cons c rest ih =>
    intro s
    rcases hc : closeBeh c with _ | e
    · simp only [closeAll, hc]
      have hr := ih { s with conns := setConnState s.conns c ConnectionState.CLOSED }
      refine ⟨hr.1, hr.2.1, fun i => ?_⟩
      rw [hr.2.2 i]
      simp only [setConnState]
      by_cases hic : i = c <;> simp [hic]
    · simp only [closeAll, hc]
      simp

theorem getLock_nextId (s : PoolState) (origin : Origin) :
    (getLock s origin).1.nextId = s.nextId := by
  rcases hl : lookupOrigin s.connections origin with _ | l <;>
    simp only [getLock, hl]

theorem lookupOrigin_append_none (reg reg2 : Registry) (o : Origin)
    (h : lookupOrigin reg o = none) :
    lookupOrigin (reg ++ reg2) o = lookupOrigin reg2 o := by
  induction reg with
  | nil => simp
  | cons e rest ih =>
    by_cases he : e.1 = o
    · rw [lookupOrigin, if_pos he] at h
      cases h
    · rw [lookupOrigin, if_neg he] at h
      rw [List.cons_append, lookupOrigin, if_neg he]
      exact ih h

theorem lookup_register (reg : Registry) (o : Origin) (c : Nat) :
    ∃ l2, lookupOrigin (updOrigin
        (if lookupOrigin reg o = none then reg ++ [(o, [])] else reg) o
        (fun l => if c ∈ l then l else l ++ [c])) o = some l2 ∧ c ∈ l2 := by
  rcases h : lookupOrigin reg o with _ | l
  · refine ⟨[c], ?_, by simp⟩
    rw [if_pos rfl, lookupOrigin_updOrigin_self,
      lookupOrigin_append_none reg [(o, [])] o h]
    rw [show lookupOrigin [(o, [])] o = some [] from by
      rw [lookupOrigin, if_pos rfl]]
    rfl
  · rw [if_neg (by simp [h]), lookupOrigin_updOrigin_self, h]
    by_cases hcl : c ∈ l
    · exact ⟨l, by simp [hcl], hcl⟩
    · exact ⟨l ++ [c], by simp [hcl], by simp⟩

/-- C7: if connection construction or the delegated `connection.request`
raises during `request()` (with the eviction closes succeeding), the error
propagates unmodified to the caller after at most one delegation — no
retry.  Reuse path: when the pool hands back a pooled connection, the
construction oracle is never consulted, `connection.request` is delegated
exactly once to that connection, its failure is returned as-is, the
registry is exactly the one the lock section left (so the reused
connection remains registered), and the connection's attributes are
whatever the delegated call's own effect left them.  Miss path: a
constructor failure propagates with no delegation and no registration —
registry and fresh-identifier counter unchanged; a delegated failure on
the newly constructed connection propagates unmodified after exactly one
delegation, with the new connection still registered under the request's
origin. -/
theorem c7_request_failure_propagation (s : PoolState) (url : URL)
    (closeBeh : Nat → Option PyErr)
    (hc : (closeAll closeBeh (getLock s (originOf url)).2.2
      (getLock s (originOf url)).1).2.2 = none) :
    (∀ c, (getLock s (originOf url)).2.1 = some c →
      ∀ ctorFail e st0 ver0 dr0 reqEffect,
        (poolRequest ctorFail st0 ver0 dr0 reqEffect (Except.error e) closeBeh s url).result
            = Except.error e ∧
        (poolRequest ctorFail st0 ver0 dr0 reqEffect (Except.error e) closeBeh s url).reqCalls
            = [c] ∧
        (poolRequest ctorFail st0 ver0 dr0 reqEffect (Except.error e) closeBeh s url).pool.connections
            = (getLock s (originOf url)).1.connections ∧
        (poolRequest ctorFail st0 ver0 dr0 reqEffect (Except.error e) closeBeh s url).pool.conns c
            = { reqEffect ((closeAll closeBeh (getLock s (originOf url)).2.2
                  (getLock s (originOf url)).1).1.conns c) with
                origin := ((closeAll closeBeh (getLock s (originOf url)).2.2
                  (getLock s (originOf url)).1).1.conns c).origin }) ∧
    ((getLock s (originOf url)).2.1 = none →
      ∀ e st0 ver0 dr0 reqEffect reqRes,
        (poolRequest (some e) st0 ver0 dr0 reqEffect reqRes closeBeh s url).result
            = Except.error e ∧
        (poolRequest (some e) st0 ver0 dr0 reqEffect reqRes closeBeh s url).reqCalls
            = [] ∧
        (poolRequest (some e) st0 ver0 dr0 reqEffect reqRes closeBeh s url).pool.connections
            = (getLock s (originOf url)).1.connections ∧
        (poolRequest (some e) st0 ver0 dr0 reqEffect reqRes closeBeh s url).pool.nextId
            = s.nextId) ∧
    ((getLock s (originOf url)).2.1 = none →
      ∀ e st0 ver0 dr0 reqEffect,
        (poolRequest none st0 ver0 dr0 reqEffect (Except.error e) closeBeh s url).result
            = Except.error e ∧
        (poolRequest none st0 ver0 dr0 reqEffect (Except.error e) closeBeh s url).reqCalls
            = [s.nextId] ∧
        ∃ l2, lookupOrigin
            (poolRequest none st0 ver0 dr0 reqEffect (Except.error e) closeBeh s url).pool.connections
            (originOf url) = some l2 ∧ s.nextId ∈ l2) := by
  have hf := closeAll_frame closeBeh (getLock s (originOf url)).2.2
    (getLock s (originOf url)).1
  have hnext : (closeAll closeBeh (getLock s (originOf url)).2.2
      (getLock s (originOf url)).1).1.nextId = s.nextId := by
    rw [hf.2.1, getLock_nextId]
  refine ⟨?_, ?_, ?_⟩
  · intro c hg ctorFail e st0 ver0 dr0 reqEffect
    simp only [poolRequest, hc, hg, doConnRequest]
    refine ⟨?_, ?_, ?_, ?_⟩ <;> simp [hf.1]
  · intro hg e st0 ver0 dr0 reqEffect reqRes
    have hred : poolRequest (some e) st0 ver0 dr0 reqEffect reqRes closeBeh s url =
        { pool := (closeAll closeBeh (getLock s (originOf url)).2.2
            (getLock s (originOf url)).1).1,
          result := Except.error e, reqCalls := [] } := by
      simp only [poolRequest, hc, hg]
    rw [hred]
    exact ⟨rfl, rfl, hf.1, hnext⟩
  · intro hg e st0 ver0 dr0 reqEffect
    simp only [poolRequest, hc, hg, doConnRequest]
    refine ⟨rfl, by rw [hnext], ?_⟩
    rw [hnext]
    exact hnext ▸ lookup_register _ (originOf url) _

theorem c7_witness :
    ((closeAll (fun _ => none) (getLock initPool (originOf urlA)).2.2
        (getLock initPool (originOf urlA)).1).2.2 = none ∧
      (getLock initPool (originOf urlA)).2.1 = none) ∧
    ((closeAll (fun _ => none) (getLock sA (originOf urlA)).2.2
        (getLock sA (originOf urlA)).1).2.2 = none ∧
      (getLock sA (originOf urlA)).2.1 = some 2) ∧
    ((poolRequest (some (PyErr.exc 9)) ConnectionState.IDLE HTTPVersion.HTTP_11
        false id (Except.error (PyErr.exc 3)) (fun _ => none) sA urlA).result
        = Except.error (PyErr.exc 3) ∧
      (poolRequest (some (PyErr.exc 9)) ConnectionState.IDLE HTTPVersion.HTTP_11
        false id (Except.error (PyErr.exc 3)) (fun _ => none) sA urlA).reqCalls
        = [2]) ∧
    ((poolRequest (some (PyErr.exc 1)) ConnectionState.IDLE HTTPVersion.HTTP_11
        false id (Except.ok 0) (fun _ => none) initPool urlA).result
        = Except.error (PyErr.exc 1) ∧
      (poolRequest (some (PyErr.exc 1)) ConnectionState.IDLE HTTPVersion.HTTP_11
        false id (Except.ok 0) (fun _ => none) initPool urlA).reqCalls = []) ∧
    ((poolRequest none ConnectionState.IDLE HTTPVersion.HTTP_11 false id
        (Except.error (PyErr.exc 2)) (fun _ => none) initPool urlA).result
        = Except.error (PyErr.exc 2) ∧
      ∃ l2, lookupOrigin (poolRequest none ConnectionState.IDLE
          HTTPVersion.HTTP_11 false id (Except.error (PyErr.exc 2))
          (fun _ => none) initPool urlA).pool.connections (originOf urlA)
        = some l2 ∧ initPool.nextId ∈ l2) := by
  have h := c7_request_failure_propagation initPool urlA (fun _ => none)
    (by decide)
  have h2 := c7_request_failure_propagation sA urlA (fun _ => none)
    (by decide)
  have hr := h2.1 2 (by decide) (some (PyErr.exc 9)) (PyErr.exc 3)
    ConnectionState.IDLE HTTPVersion.HTTP_11 false id
  have ha := h.2.1 (by decide) (PyErr.exc 1) ConnectionState.IDLE
    HTTPVersion.HTTP_11 false id (Except.ok 0)
  have hb := h.2.2 (by decide) (PyErr.exc 2) ConnectionState.IDLE
    HTTPVersion.HTTP_11 false id
  exact ⟨⟨by decide, by decide⟩, ⟨by decide, by decide⟩,
    ⟨hr.1, hr.2.1⟩, ⟨ha.1, ha.2.1⟩, ⟨hb.1, hb.2.2⟩⟩

/-! ### Registry membership lemmas -/

theorem mem_of_lookup (reg : Registry) (o : Origin) (l : List Nat)
    (h : lookupOrigin reg o = some l) : (o, l) ∈ reg := by
  induction reg with
  | nil => cases h
  | cons e rest ih =>
    obtain ⟨p, v⟩ := e
    by_cases he : p = o
    · rw [lookupOrigin, if_pos he] at h
      obtain rfl : v = l := by injection h
      subst he
      exact List.mem_cons_self _ _
    · rw [lookupOrigin, if_neg he] at h
      exact List.mem_cons_of_mem _ (ih h)

theorem lookup_eq_of_mem (reg : Registry) (o : Origin) (l : List Nat)
    (hk : (regKeys reg).Nodup) (h : (o, l) ∈ reg) :
    lookupOrigin reg o = some l := by
  induction reg with
  | nil => cases h
  | cons e rest ih =>
    have hk1 : (e.1 :: regKeys rest).Nodup := hk
    have hk2 := List.nodup_cons.mp hk1
    rcases List.mem_cons.mp h with rfl | hmem
    · rw [lookupOrigin, if_pos rfl]
    · by_cases he : e.1 = o
      · exfalso
        have ho : o ∈ regKeys rest := List.mem_map.mpr ⟨(o, l), hmem, rfl⟩
        rw [he] at hk2
        exact hk2.1 ho
      · rw [lookupOrigin, if_neg he]
        exact ih hk2.2 hmem

theorem lookup_none_iff (reg : Registry) (o : Origin) :
    lookupOrigin reg o = none ↔ o ∉ regKeys reg := by
  induction reg with
  | nil => simp [lookupOrigin, regKeys]
  | cons e rest ih =>
    by_cases he : e.1 = o
    · rw [lookupOrigin, if_pos he]
      simp [regKeys, he]
    · rw [lookupOrigin, if_neg he]
      simp only [regKeys, List.map_cons, List.mem_cons]
      constructor
      · intro hn hor
        rcases hor with hor | hor
        · exact he hor.symm
        · exact (ih.mp hn) (by simpa [regKeys] using hor)
      · intro hn
        exact ih.mpr (fun hmem => hn (Or.inr (by simpa [regKeys] using hmem)))

theorem mem_updOrigin (reg : Registry) (o : Origin) (f : List Nat → List Nat)
    (e : Origin × List Nat) (h : e ∈ updOrigin reg o f) :
    (∃ l0, (o, l0) ∈ reg ∧ e = (o, f l0)) ∨ (e ∈ reg ∧ e.1 ≠ o) := by
  obtain ⟨a, ha, hae⟩ := List.mem_map.mp h
  obtain ⟨p, v⟩ := a
  by_cases hao : p = o
  · subst hao
    left
    refine ⟨v, ha, ?_⟩
    rw [← hae]
    simp
  · right
    rw [← hae]
    simp only [if_neg hao]
    exact ⟨ha, hao⟩

theorem mem_delOrigin (reg : Registry) (o : Origin) (e : Origin × List Nat)
    (h : e ∈ delOrigin reg o) : e ∈ reg ∧ e.1 ≠ o := by
  have hf := List.mem_filter.mp h
  exact ⟨hf.1, by simpa using hf.2⟩

theorem regKeys_updOrigin (reg : Registry) (o : Origin)
    (f : List Nat → List Nat) :
    regKeys (updOrigin reg o f) = regKeys reg := by
  induction reg with
  | nil => rfl
  | cons e rest ih =>
    by_cases he : e.1 = o
    · simp only [updOrigin, regKeys, List.map_cons, if_pos he]
      congr 1
    · simp only [updOrigin, regKeys, List.map_cons, if_neg he]
      congr 1

theorem regKeys_delOrigin_sublist (reg : Registry) (o : Origin) :
    List.Sublist (regKeys (delOrigin reg o)) (regKeys reg) :=
  List.Sublist.map Prod.fst (List.filter_sublist reg)

/-! ### The registry well-formedness invariant -/

/-- Well-formedness of a pool state: origin keys are distinct, no origin
maps to an empty set, each set is duplicate-free, and every registered
connection identifier is an allocated one whose `origin` attribute equals
the key it is registered under. -/
def WF (s : PoolState) : Prop :=
  (regKeys s.connections).Nodup ∧
  ∀ e ∈ s.connections, e.2 ≠ [] ∧ e.2.Nodup ∧
    ∀ c ∈ e.2, c < s.nextId ∧ (s.conns c).origin = e.1

theorem wf_of_fields (s t : PoolState) (h : WF s)
    (hconn : t.connections = s.connections) (hnext : s.nextId ≤ t.nextId)
    (horig : ∀ i, (t.conns i).origin = (s.conns i).origin) : WF t := by
  obtain ⟨h1, h2⟩ := h
  rw [WF, hconn]
  refine ⟨h1, fun e he => ?_⟩
  obtain ⟨g1, g2, g3⟩ := h2 e he
  refine ⟨g1, g2, fun c hc => ?_⟩
  exact ⟨lt_of_lt_of_le (g3 c hc).1 hnext, by rw [horig c]; exact (g3 c hc).2⟩

theorem wf_shrinkReg (s : PoolState) (o : Origin) (l newval : List Nat)
    (h : WF s) (hl : lookupOrigin s.connections o = some l)
    (hsub : ∀ x ∈ newval, x ∈ l) (hnd : newval.Nodup) :
    WF { s with connections := shrinkReg s.connections o newval } := by
  obtain ⟨hkeys, hent⟩ := h
  have hmeml : (o, l) ∈ s.connections := mem_of_lookup _ _ _ hl
  have hupdmem : ∀ e, e ∈ updOrigin s.connections o (fun _ => newval) →
      (e = (o, newval) ∧ ∀ x ∈ newval, x ∈ l) ∨ (e ∈ s.connections ∧ e.1 ≠ o) := by
    intro e he
    rcases mem_updOrigin _ _ _ _ he with ⟨l0, hl0, rfl⟩ | hold
    · left
      exact ⟨rfl, hsub⟩
    · right
      exact hold
  constructor
  · rw [shrinkReg]
    by_cases hv : newval = []
    · rw [if_pos hv]
      refine List.Nodup.sublist (regKeys_delOrigin_sublist _ _) ?_
      rw [regKeys_updOrigin]
      exact hkeys
    · rw [if_neg hv, regKeys_updOrigin]
      exact hkeys
  · intro e he
    rw [shrinkReg] at he
    by_cases hv : newval = []
    · rw [if_pos hv] at he
      obtain ⟨he2, hne⟩ := mem_delOrigin _ _ _ he
      rcases hupdmem e he2 with ⟨rfl, _⟩ | ⟨hold, _⟩
      · exact absurd rfl hne
      · obtain ⟨g1, g2, g3⟩ := hent e hold
        exact ⟨g1, g2, fun c hc => g3 c hc⟩
    · rw [if_neg hv] at he
      rcases hupdmem e he with ⟨rfl, hsub2⟩ | ⟨hold, _⟩
      · refine ⟨hv, hnd, fun c hc => ?_⟩
        have hcl : c ∈ l := hsub2 c hc
        exact (hent (o, l) hmeml).2.2 c hcl
      · obtain ⟨g1, g2, g3⟩ := hent e hold
        exact ⟨g1, g2, fun c hc => g3 c hc⟩

theorem wf_getLock (s : PoolState) (origin : Origin) (h : WF s) :
    WF (getLock s origin).1 := by
  rcases hl : lookupOrigin s.connections origin with _ | l
  · rw [getLock_none s origin hl]
    exact h
  · have hnd : l.Nodup := (h.2 (origin, l) (mem_of_lookup _ _ _ hl)).2.1
    rw [getLock_some s origin l hl hnd]
    have hwf1 : WF { s with connections := shrinkReg s.connections origin (liveOf s.conns l) } :=
      wf_shrinkReg s origin l (liveOf s.conns l) h hl
        (fun x hx => (List.mem_filter.mp hx).1) (hnd.filter _)
    refine wf_of_fields _ _ hwf1 rfl le_rfl ?_
    intro i
    rcases hr : reuseOf s.conns l with _ | c
    · rfl
    · by_cases hic : i = c <;> simp [setConnState, hic]

theorem wf_closeAll (closeBeh : Nat → Option PyErr) (l : List Nat)
    (s : PoolState) (h : WF s) : WF (closeAll closeBeh l s).1 := by
  have hf := closeAll_frame closeBeh l s
  exact wf_of_fields s _ h hf.1 hf.2.1.ge hf.2.2

theorem wf_doConnRequest (reqEffect : ConnAttrs → ConnAttrs)
    (reqRes : Except PyErr Nat) (c : Nat) (s : PoolState) (h : WF s) :
    WF (doConnRequest reqEffect reqRes c s).pool := by
  refine wf_of_fields s _ h rfl le_rfl ?_
  intro i
  by_cases hic : i = c <;> simp [doConnRequest, hic]

theorem wf_responseClosed (s : PoolState) (c : Nat) (h : WF s) :
    WF (responseClosed s c).1 := by
  by_cases hcl : (s.conns c).state = ConnectionState.CLOSED
  · rcases hl : lookupOrigin s.connections (s.conns c).origin with _ | l
    · simp only [responseClosed, if_pos hcl, hl]
      exact h
    · by_cases hmem : c ∈ l
      · have hred : responseClosed s c = ({ s with connections := shrinkReg s.connections (s.conns c).origin (l.erase c) }, Except.ok ()) := by
          simp only [responseClosed, if_pos hcl, hl, if_pos hmem, shrinkReg]
        rw [hred]
        have hnd : l.Nodup := (h.2 _ (mem_of_lookup _ _ _ hl)).2.1
        exact wf_shrinkReg s _ l (l.erase c) h hl
          (fun x hx => List.mem_of_mem_erase hx) (hnd.erase c)
      · simp only [responseClosed, if_pos hcl, hl, if_neg hmem]
        exact h
  · simp only [responseClosed, if_neg hcl]
    exact h

theorem wf_poolClose (closeBeh : Nat → Option PyErr) (s : PoolState)
    (_h : WF s) : WF (poolClose closeBeh s).1 := by
  have h0 : WF { s with connections := ([] : Registry) } := by
    refine ⟨by simp [regKeys], ?_⟩
    intro e he
    cases he
  exact wf_closeAll closeBeh (gatherAll s.connections) _ h0

theorem wf_register (s : PoolState) (o : Origin) (st0 : ConnectionState)
    (ver0 : HTTPVersion) (dr0 : Bool) (h : WF s) :
    WF { connections := updOrigin
          (if lookupOrigin s.connections o = none
            then s.connections ++ [(o, [])] else s.connections) o
          (fun l => if s.nextId ∈ l then l else l ++ [s.nextId]),
         conns := fun i => if i = s.nextId then
            { origin := o, state := st0, http_version := ver0,
              is_connection_dropped := dr0 } else s.conns i,
         nextId := s.nextId + 1 } := by
  obtain ⟨hkeys, hent⟩ := h
  rcases hlook : lookupOrigin s.connections o with _ | l
  · -- origin not yet present: setdefault appends a fresh empty entry
    rw [if_pos rfl]
    have hko : o ∉ regKeys s.connections := (lookup_none_iff _ _).mp hlook
    have hkeys2 : (regKeys (s.connections ++ [(o, [])])).Nodup := by
      have hsplit : regKeys (s.connections ++ [(o, [])]) =
          regKeys s.connections ++ [o] := by
        simp [regKeys]
      rw [hsplit]
      refine List.nodup_append.mpr ⟨hkeys, List.nodup_singleton o, ?_⟩
      intro a ha hb
      rw [List.mem_singleton.mp hb] at ha
      exact hko ha
    refine ⟨by rw [regKeys_updOrigin]; exact hkeys2, ?_⟩
    intro e he
    have he2 : e ∈ updOrigin (s.connections ++ [(o, [])]) o
        (fun l => if s.nextId ∈ l then l else l ++ [s.nextId]) := he
    rcases mem_updOrigin _ _ _ _ he2 with ⟨l0, hl0, rfl⟩ | ⟨hold, hne⟩
    · -- the (only) entry with key o is the appended empty one
      rcases List.mem_append.mp hl0 with hl0l | hl0r
      · exfalso
        exact hko (List.mem_map.mpr ⟨(o, l0), hl0l, rfl⟩)
      · obtain rfl : l0 = [] := by
          rcases List.mem_cons.mp hl0r with hh | hh
          · injection hh with h1 h2
          · cases hh
        refine ⟨by simp, by simp, ?_⟩
        intro c hc
        simp only [List.not_mem_nil, ite_false, List.nil_append] at hc
        rcases List.mem_cons.mp hc with rfl | hh
        · exact ⟨Nat.lt_succ_self _, by simp⟩
        · cases hh
    · -- an untouched pre-existing entry
      rcases List.mem_append.mp hold with holdl | holdr
      · obtain ⟨g1, g2, g3⟩ := hent e holdl
        refine ⟨g1, g2, fun c hc => ?_⟩
        have hb := (g3 c hc).1
        exact ⟨Nat.lt_succ_of_lt hb, by simp [Nat.ne_of_lt hb, (g3 c hc).2]⟩
      · exfalso
        rcases List.mem_cons.mp holdr with rfl | hh
        · exact hne rfl
        · cases hh
  · -- origin already present: the existing set gets the new identifier
    rw [if_neg (by simp [hlook])]
    refine ⟨by rw [regKeys_updOrigin]; exact hkeys, ?_⟩
    intro e he
    have he2 : e ∈ updOrigin s.connections o
        (fun l => if s.nextId ∈ l then l else l ++ [s.nextId]) := he
    rcases mem_updOrigin _ _ _ _ he2 with ⟨l0, hl0, rfl⟩ | ⟨hold, hne⟩
    · obtain rfl : l = l0 := by
        have hx := lookup_eq_of_mem _ _ _ hkeys hl0
        rw [hlook] at hx
        injection hx with hval
      obtain ⟨g1, g2, g3⟩ := hent (o, l) (mem_of_lookup _ _ _ hlook)
      have hfresh : s.nextId ∉ l := by
        intro hmem
        exact Nat.lt_irrefl _ (g3 _ hmem).1
      rw [if_neg hfresh]
      refine ⟨by simp, by simp [List.nodup_append, g2, hfresh], ?_⟩
      intro c hc
      rcases List.mem_append.mp hc with hcl | hcr
      · have hb := (g3 c hcl).1
        exact ⟨Nat.lt_succ_of_lt hb, by simp [Nat.ne_of_lt hb, (g3 c hcl).2]⟩
      · rcases List.mem_cons.mp hcr with rfl | hh
        · exact ⟨Nat.lt_succ_self _, by simp⟩
        · cases hh
    · obtain ⟨g1, g2, g3⟩ := hent e hold
      refine ⟨g1, g2, fun c hc => ?_⟩
      have hb := (g3 c hc).1
      exact ⟨Nat.lt_succ_of_lt hb, by simp [Nat.ne_of_lt hb, (g3 c hc).2]⟩

theorem wf_poolRequest (ctorFail : Option PyErr) (st0 : ConnectionState)
    (ver0 : HTTPVersion) (dr0 : Bool) (reqEffect : ConnAttrs → ConnAttrs)
    (reqRes : Except PyErr Nat) (closeBeh : Nat → Option PyErr)
    (s : PoolState) (url : URL) (h : WF s) :
    WF (poolRequest ctorFail st0 ver0 dr0 reqEffect reqRes closeBeh s url).pool := by
  have h2 : WF (closeAll closeBeh (getLock s (originOf url)).2.2
      (getLock s (originOf url)).1).1 :=
    wf_closeAll _ _ _ (wf_getLock s _ h)
  rcases hcl2 : (closeAll closeBeh (getLock s (originOf url)).2.2
      (getLock s (originOf url)).1).2.2 with _ | e
  · rcases hg : (getLock s (originOf url)).2.1 with _ | c
    · rcases ctorFail with _ | e0
      · simp only [poolRequest, hcl2, hg]
        exact wf_doConnRequest _ _ _ _
          (wf_register (closeAll closeBeh (getLock s (originOf url)).2.2
            (getLock s (originOf url)).1).1 (originOf url) st0 ver0 dr0 h2)
      · simp only [poolRequest, hcl2, hg]
        exact h2
    · simp only [poolRequest, hcl2, hg]
      exact wf_doConnRequest _ _ _ _ h2
  · simp only [poolRequest, hcl2]
    exact h2

/-! ### Reachable pool states -/

/-- One observable operation on the pool: a `request` call (with arbitrary
oracle behaviors of the external connection), a bare
`_get_connection_from_pool`, a `_response_closed` callback, a pool
`close()`, or an external mutation of connection attributes by the
connection objects themselves — which may change states and probe results
but never a connection's read-only `origin`. -/
inductive Step : PoolState → PoolState → Prop where
  | request (s : PoolState) (ctorFail : Option PyErr) (st0 : ConnectionState)
      (ver0 : HTTPVersion) (dr0 : Bool) (reqEffect : ConnAttrs → ConnAttrs)
      (reqRes : Except PyErr Nat) (closeBeh : Nat → Option PyErr) (url : URL) :
      Step s (poolRequest ctorFail st0 ver0 dr0 reqEffect reqRes closeBeh s url).pool
  | getConn (s : PoolState) (closeBeh : Nat → Option PyErr) (origin : Origin) :
      Step s (getConnectionFromPool closeBeh s origin).1
  | respClosed (s : PoolState) (c : Nat) : Step s (responseClosed s c).1
  | closePool (s : PoolState) (closeBeh : Nat → Option PyErr) :
      Step s (poolClose closeBeh s).1
  | external (s : PoolState) (f : Nat → ConnAttrs)
      (hf : ∀ i, (f i).origin = (s.conns i).origin) :
      Step s { s with conns := f }

/-- A pool state reachable from a fresh pool by any sequence of
operations. -/
def Reachable (s : PoolState) : Prop :=
  Relation.ReflTransGen Step initPool s

theorem wf_step (s t : PoolState) (h : WF s) (hst : Step s t) : WF t := by
  cases hst with
  | request ctorFail st0 ver0 dr0 reqEffect reqRes closeBeh url =>
    exact wf_poolRequest ctorFail st0 ver0 dr0 reqEffect reqRes closeBeh s url h
  | getConn closeBeh origin =>
    exact wf_closeAll _ _ _ (wf_getLock s origin h)
  | respClosed c => exact wf_responseClosed s c h
  | closePool closeBeh => exact wf_poolClose closeBeh s h
  | external f hf => exact wf_of_fields s _ h rfl le_rfl hf

theorem wf_initPool : WF initPool := by
  refine ⟨by simp [initPool, regKeys], ?_⟩
  intro e he
  cases he

theorem wf_reachable (s : PoolState) (h : Reachable s) : WF s := by
  induction h with
  | refl => exact wf_initPool
  | tail hab hbc ih => exact wf_step _ _ ih hbc

/-! ### C5 and C9: reachable-state invariants of the registry -/

/-- C5: in every pool state reachable by any sequence of `request`,
`_get_connection_from_pool`, `_response_closed` and `close` operations
(with arbitrary external connection behavior), no origin key of
`self.connections` maps to an empty connection set. -/
theorem c5_no_empty_origin_entry (s : PoolState) (h : Reachable s) :
    ∀ e ∈ s.connections, e.2 ≠ [] :=
  fun e he => ((wf_reachable s h).2 e he).1

def sReq : PoolState :=
  (poolRequest none ConnectionState.IDLE HTTPVersion.HTTP_11 false id
    (Except.ok 0) (fun _ => none) initPool urlA).pool

theorem reachable_sReq : Reachable sReq :=
  Relation.ReflTransGen.single
    (Step.request initPool none ConnectionState.IDLE HTTPVersion.HTTP_11 false
      id (Except.ok 0) (fun _ => none) urlA)

theorem c5_witness :
    ((oA, [0]) ∈ sReq.connections) ∧ ([0] : List Nat) ≠ [] :=
  ⟨by decide,
    c5_no_empty_origin_entry sReq reachable_sReq (oA, [0]) (by decide)⟩

/-- C9: in every reachable pool state, every registered connection
identifier is listed under exactly one origin entry, and that entry's key
equals the connection's own `origin` attribute (the origin `request`
derived from the URL when it constructed and registered the connection). -/
theorem c9_registry_origin_consistency (s : PoolState) (h : Reachable s) :
    (∀ o l, (o, l) ∈ s.connections → ∀ c ∈ l, (s.conns c).origin = o) ∧
    (∀ c o1 l1 o2 l2, (o1, l1) ∈ s.connections → (o2, l2) ∈ s.connections →
      c ∈ l1 → c ∈ l2 → o1 = o2 ∧ l1 = l2) := by
  have hwf := wf_reachable s h
  constructor
  · intro o l hmem c hc
    exact ((hwf.2 (o, l) hmem).2.2 c hc).2
  · intro c o1 l1 o2 l2 h1 h2 hc1 hc2
    have e1 : (s.conns c).origin = o1 := ((hwf.2 _ h1).2.2 c hc1).2
    have e2 : (s.conns c).origin = o2 := ((hwf.2 _ h2).2.2 c hc2).2
    have ho : o1 = o2 := e1.symm.trans e2
    subst ho
    have l1l : lookupOrigin s.connections o1 = some l1 :=
      lookup_eq_of_mem _ _ _ hwf.1 h1
    have l2l : lookupOrigin s.connections o1 = some l2 :=
      lookup_eq_of_mem _ _ _ hwf.1 h2
    rw [l1l] at l2l
    exact ⟨rfl, Option.some.inj l2l⟩

theorem c9_witness :
    ((oA, [0]) ∈ sReq.connections) ∧ (0 ∈ ([0] : List Nat)) ∧
    (sReq.conns 0).origin = oA :=
  ⟨by decide, by decide,
    (c9_registry_origin_consistency sReq reachable_sReq).1 oA [0]
      (by decide) 0 (by decide)⟩
